import Mathlib

/-!
Verification of the step-by-step workflow execution session controller of
the `workflows-mcp` server (source: `src/index.ts`, class `WorkflowMCPServer`).

The development shallowly embeds the data model (JSON values, workflow
definitions, steps, execution sessions) and the operations of the core
(`runWorkflowStep`, `resolveTemplateVariables`, `resolveTemplateInObject`,
`getVisibleVariables`, `getChangedVariables`, `generateStepInstructions`)
as executable Lean functions, and proves properties of those functions.

JavaScript objects are modelled as insertion-ordered association lists with
unique keys; JavaScript numbers are modelled as exact integers; machine
strings are Lean strings (lists of characters).
-/

set_option autoImplicit false

mutual
/-- JSON-like runtime values (`any` in the TypeScript source).  Objects keep
their fields in insertion order, as JavaScript objects do. -/
inductive Json where
  | null : Json
  | bool : Bool → Json
  | num : Int → Json
  | str : String → Json
  | arr : JsonArr → Json
  | obj : JsonObj → Json

/-- The items of a JSON array. -/
inductive JsonArr where
  | nil : JsonArr
  | cons : Json → JsonArr → JsonArr

/-- The fields of a JSON object, in insertion order. -/
inductive JsonObj where
  | nil : JsonObj
  | cons : String → Json → JsonObj → JsonObj
end

deriving instance DecidableEq for Json

/-- JavaScript truthiness of a value (`if (value)`). -/
def Json.truthy : Json → Bool
  | .null => false
  | .bool b => b
  | .num n => n != 0
  | .str s => s != ""
  | .arr _ => true
  | .obj _ => true

/-- One escaped character of a JSON string literal, as `JSON.stringify` emits it. -/
def escapeChar (c : Char) : List Char :=
  if c = '"' then ['\\', '"']
  else if c = '\\' then ['\\', '\\']
  else [c]

/-- The body of a JSON string literal. -/
def escapeString (s : String) : String :=
  ⟨s.data.flatMap escapeChar⟩

mutual
/-- `JSON.stringify(value)` (compact form, no indentation).  Fields are
emitted in insertion order, exactly as V8 does. -/
def Json.stringify : Json → String
  | .null => "null"
  | .bool b => if b then ("true") else ("false")
  | .num n => toString n
  | .str s => "\"" ++ escapeString s ++ "\""
  | .arr xs => "[" ++ JsonArr.stringifyItems xs ++ "]"
  | .obj fs => "\x7b" ++ JsonObj.stringifyFields fs ++ "\x7d"

/-- Comma-separated items of an array for `JSON.stringify`. -/
def JsonArr.stringifyItems : JsonArr → String
  | .nil => ""
  | .cons x .nil => Json.stringify x
  | .cons x tl => Json.stringify x ++ "," ++ JsonArr.stringifyItems tl

/-- Comma-separated fields of an object for `JSON.stringify`. -/
def JsonObj.stringifyFields : JsonObj → String
  | .nil => ""
  | .cons k v .nil => "\"" ++ escapeString k ++ "\":" ++ Json.stringify v
  | .cons k v tl =>
      "\"" ++ escapeString k ++ "\":" ++ Json.stringify v ++ "," ++ JsonObj.stringifyFields tl
end

/-- `n` spaces, for `JSON.stringify(value, null, 2)` indentation. -/
def spaces (n : Nat) : String :=
  ⟨List.replicate n ' '⟩

mutual
/-- `JSON.stringify(value, null, 2)`: pretty form with two-space indentation,
`ind` being the indentation of the surrounding context. -/
def Json.stringifyIndent (ind : Nat) : Json → String
  | .null => "null"
  | .bool b => if b then ("true") else ("false")
  | .num n => toString n
  | .str s => "\"" ++ escapeString s ++ "\""
  | .arr .nil => "[]"
  | .arr xs => "[\n" ++ JsonArr.itemsIndent (ind + 2) xs ++ "\n" ++ spaces ind ++ "]"
  | .obj .nil => "\x7b\x7d"
  | .obj fs => "\x7b\n" ++ JsonObj.fieldsIndent (ind + 2) fs ++ "\n" ++ spaces ind ++ "\x7d"

/-- Indented array items for the pretty `JSON.stringify`. -/
def JsonArr.itemsIndent (ind : Nat) : JsonArr → String
  | .nil => ""
  | .cons x .nil => spaces ind ++ Json.stringifyIndent ind x
  | .cons x tl => spaces ind ++ Json.stringifyIndent ind x ++ ",\n" ++ JsonArr.itemsIndent ind tl

/-- Indented object fields for the pretty `JSON.stringify`. -/
def JsonObj.fieldsIndent (ind : Nat) : JsonObj → String
  | .nil => ""
  | .cons k v .nil => spaces ind ++ "\"" ++ escapeString k ++ "\": " ++ Json.stringifyIndent ind v
  | .cons k v tl =>
      spaces ind ++ "\"" ++ escapeString k ++ "\": " ++ Json.stringifyIndent ind v ++ ",\n" ++
        JsonObj.fieldsIndent ind tl
end

mutual
/-- JavaScript `value.toString()`, used on branch step results.  Arrays join
their items with commas (`null` items becoming empty); plain objects print
as `[object Object]`.  The `null` case never arises in the code because the
call is guarded by a truthiness test. -/
def Json.toJSString : Json → String
  | .null => "null"
  | .bool b => if b then ("true") else ("false")
  | .num n => toString n
  | .str s => s
  | .arr xs => JsonArr.joinItems xs
  | .obj _ => "[object Object]"

/-- Comma-joined items for `Array.prototype.toString`. -/
def JsonArr.joinItems : JsonArr → String
  | .nil => ""
  | .cons x .nil => Json.itemString x
  | .cons x tl => Json.itemString x ++ "," ++ JsonArr.joinItems tl

/-- One item of an array under `Array.prototype.toString`: as
`Json.toJSString`, except that `null` renders empty. -/
def Json.itemString : Json → String
  | .null => ""
  | .bool b => if b then ("true") else ("false")
  | .num n => toString n
  | .str s => s
  | .arr xs => JsonArr.joinItems xs
  | .obj _ => "[object Object]"
end

/-- Association-list lookup: the value stored under `key`, if any.
Models both JavaScript object indexing and `Map.get`. -/
def alistLookup {κ α : Type} [DecidableEq κ] : List (κ × α) → κ → Option α
  | [], _ => none
  | (k, v) :: tl, key => if k = key then some v else alistLookup tl key

/-- JavaScript `key in object`. -/
def alistHasKey {κ α : Type} [DecidableEq κ] (m : List (κ × α)) (key : κ) : Bool :=
  (alistLookup m key).isSome

/-- Association-list update: overwrite the value under `key` in place, or
append the binding if `key` is new (JavaScript object assignment / `Map.set`). -/
def alistSet {κ α : Type} [DecidableEq κ] : List (κ × α) → κ → α → List (κ × α)
  | [], key, val => [(key, val)]
  | (k, v) :: tl, key, val =>
      if k = key then (k, val) :: tl else (k, v) :: alistSet tl key val

/-- Association-list removal of the entry under `key` (`Map.delete`). -/
def alistErase {κ α : Type} [DecidableEq κ] : List (κ × α) → κ → List (κ × α)
  | [], _ => []
  | (k, v) :: tl, key => if k = key then tl else (k, v) :: alistErase tl key

theorem alistLookup_set {κ α : Type} [DecidableEq κ] (m : List (κ × α)) (k k' : κ) (v : α) :
    alistLookup (alistSet m k v) k' = if k = k' then some v else alistLookup m k' := by
  induction m with
  | nil => simp [alistSet, alistLookup]
  | cons hd tl ih =>
      obtain ⟨k₀, v₀⟩ := hd
      by_cases h₀ : k₀ = k
      · subst h₀
        by_cases h' : k₀ = k' <;> simp [alistSet, alistLookup, h']
      · by_cases h' : k₀ = k'
        · subst h'
          have hne : k ≠ k₀ := fun hh => h₀ hh.symm
          simp [alistSet, alistLookup, h₀, hne]
        · simp [alistSet, alistLookup, h₀, h', ih]

theorem alistLookup_eq_none_of_not_mem {κ α : Type} [DecidableEq κ]
    (m : List (κ × α)) (k : κ) (h : k ∉ m.map Prod.fst) : alistLookup m k = none := by
  induction m with
  | nil => simp [alistLookup]
  | cons hd tl ih =>
      obtain ⟨k₀, v₀⟩ := hd
      simp only [List.map_cons, List.mem_cons] at h
      push_neg at h
      have hne : k₀ ≠ k := fun hh => h.1 hh.symm
      simp [alistLookup, hne, ih h.2]

theorem alistLookup_erase_self {κ α : Type} [DecidableEq κ] (m : List (κ × α)) (k : κ)
    (huniq : (m.map Prod.fst).Nodup) : alistLookup (alistErase m k) k = none := by
  induction m with
  | nil => simp [alistErase, alistLookup]
  | cons hd tl ih =>
      obtain ⟨k₀, v₀⟩ := hd
      simp only [List.map_cons, List.nodup_cons] at huniq
      by_cases h₀ : k₀ = k
      · subst h₀
        simpa [alistErase] using alistLookup_eq_none_of_not_mem tl k₀ huniq.1
      · simp [alistErase, alistLookup, h₀, ih huniq.2]

theorem alistSet_keys_mem {κ α : Type} [DecidableEq κ] (m : List (κ × α)) (k key : κ) (v : α)
    (hkey : key ∈ (alistSet m k v).map Prod.fst) : key = k ∨ key ∈ m.map Prod.fst := by
  induction m with
  | nil => simpa [alistSet] using hkey
  | cons hd tl ih =>
      obtain ⟨k₀, v₀⟩ := hd
      by_cases h₀ : k₀ = k
      · subst h₀
        simp only [alistSet, if_pos rfl, List.map_cons, List.mem_cons] at hkey
        simpa using hkey
      · simp only [alistSet, if_neg h₀, List.map_cons, List.mem_cons] at hkey
        rcases hkey with h | h
        · simp [h]
        · rcases ih h with h' | h'
          · exact Or.inl h'
          · exact Or.inr (List.mem_cons.mpr (Or.inr h'))

theorem alistSet_keys_nodup {κ α : Type} [DecidableEq κ] (m : List (κ × α)) (k : κ) (v : α)
    (huniq : (m.map Prod.fst).Nodup) : ((alistSet m k v).map Prod.fst).Nodup := by
  induction m with
  | nil => simp [alistSet]
  | cons hd tl ih =>
      obtain ⟨k₀, v₀⟩ := hd
      simp only [List.map_cons, List.nodup_cons] at huniq
      by_cases h₀ : k₀ = k
      · subst h₀
        have hset : alistSet ((k₀, v₀) :: tl) k₀ v = (k₀, v) :: tl := by simp [alistSet]
        rw [hset]
        simp only [List.map_cons, List.nodup_cons]
        exact ⟨huniq.1, huniq.2⟩
      · simp only [alistSet, if_neg h₀, List.map_cons, List.nodup_cons]
        refine ⟨fun hk₀ => ?_, ih huniq.2⟩
        rcases alistSet_keys_mem tl k k₀ v hk₀ with h' | h'
        · exact h₀ h'
        · exact huniq.1 h'

/-- A `\w` character of the template-token regex `/\{\{(\w+)\}\}/g`:
ASCII letters, digits, or underscore. -/
def isWordChar (c : Char) : Bool :=
  c.isAlpha || c.isDigit || c = '_'

/-- Try to match the token pattern `\{\{(\w+)\}\}` at the head of the
character stream.  On success, return the captured identifier and the
characters following the match.  Greedy `\w+` followed by the literal close
braces is maximal munch: no backtracking case can succeed otherwise. -/
def tryToken : List Char → Option (List Char × List Char)
  | '\x7b' :: '\x7b' :: rest =>
    match rest.takeWhile isWordChar, rest.dropWhile isWordChar with
    | [], _ => none
    | w, '\x7d' :: '\x7d' :: rest2 => some (w, rest2)
    | _, _ => none
  | _ => none

/-- The replacement text for a resolved template variable: string values are
substituted verbatim, other values as their `JSON.stringify` text
(`typeof value === 'string' ? value : JSON.stringify(value)`). -/
def renderValue : Json → String
  | .str s => s
  | v => Json.stringify v

/-- The scan of `String.prototype.replace` with the global template-token
regex: at each position, a matching token whose identifier is a key of
`vars` is replaced, a matching token with an unknown identifier is kept
verbatim, and scanning continues after the match either way.  `fuel` bounds
the recursion; `fuel = length of the input` always suffices because every
iteration consumes at least one character. -/
def resolveCharsFuel (vars : List (String × Json)) : Nat → List Char → List Char
  | 0, cs => cs
  | Nat.succ fuel, cs =>
    match tryToken cs with
    | some (w, rest) =>
      match alistLookup vars (⟨w⟩ : String) with
      | some v => (renderValue v).data ++ resolveCharsFuel vars fuel rest
      | none => '\x7b' :: '\x7b' :: (w ++ '\x7d' :: '\x7d' :: resolveCharsFuel vars fuel rest)
    | none =>
      match cs with
      | [] => []
      | c :: tl => c :: resolveCharsFuel vars fuel tl

/-- `resolveTemplateVariables(template, variables)` from `src/index.ts`:
replace every `\x7b\x7b name \x7d\x7d` token whose name is a key of
`variables`; keep unknown tokens untouched. -/
def resolveTemplateVariables (template : String) (vars : List (String × Json)) : String :=
  ⟨resolveCharsFuel vars template.data.length template.data⟩

/-- Does the scan of the template-token regex over `cs` find a token whose
identifier is a key of `vars`?  Same traversal as `resolveCharsFuel`. -/
def hasMatchingTokenFuel (vars : List (String × Json)) : Nat → List Char → Bool
  | 0, _ => false
  | Nat.succ fuel, cs =>
    match tryToken cs with
    | some (w, rest) => alistHasKey vars (⟨w⟩ : String) || hasMatchingTokenFuel vars fuel rest
    | none =>
      match cs with
      | [] => false
      | _ :: tl => hasMatchingTokenFuel vars fuel tl

/-- A string contains a remaining template token whose identifier is a key
of `vars`. -/
def hasMatchingToken (s : String) (vars : List (String × Json)) : Bool :=
  hasMatchingTokenFuel vars s.data.length s.data

mutual
/-- `resolveTemplateInObject(obj, variables)` from `src/index.ts`: resolve
template tokens in every string, recursing through arrays (element-wise)
and objects (value-wise, keys untouched); other values pass through. -/
def resolveTemplateInObject (vars : List (String × Json)) : Json → Json
  | .str s => .str (resolveTemplateVariables s vars)
  | .arr xs => .arr (resolveTemplateInArr vars xs)
  | .obj fs => .obj (resolveTemplateInFields vars fs)
  | other => other

/-- Element-wise template resolution in an array. -/
def resolveTemplateInArr (vars : List (String × Json)) : JsonArr → JsonArr
  | .nil => .nil
  | .cons x tl => .cons (resolveTemplateInObject vars x) (resolveTemplateInArr vars tl)

/-- Value-wise template resolution in an object. -/
def resolveTemplateInFields (vars : List (String × Json)) : JsonObj → JsonObj
  | .nil => .nil
  | .cons k v tl => .cons k (resolveTemplateInObject vars v) (resolveTemplateInFields vars tl)
end

mutual
/-- Does a value contain, in any of its strings (object keys included), a
remaining template token whose identifier is a key of `vars`? -/
def Json.hasPendingTemplate (vars : List (String × Json)) : Json → Bool
  | .str s => hasMatchingToken s vars
  | .arr xs => JsonArr.hasPendingTemplate vars xs
  | .obj fs => JsonObj.hasPendingTemplate vars fs
  | _ => false

/-- Any array item with a remaining matching token. -/
def JsonArr.hasPendingTemplate (vars : List (String × Json)) : JsonArr → Bool
  | .nil => false
  | .cons x tl => Json.hasPendingTemplate vars x || JsonArr.hasPendingTemplate vars tl

/-- Any object key or value with a remaining matching token. -/
def JsonObj.hasPendingTemplate (vars : List (String × Json)) : JsonObj → Bool
  | .nil => false
  | .cons k v tl =>
      hasMatchingToken k vars || Json.hasPendingTemplate vars v ||
        JsonObj.hasPendingTemplate vars tl
end

/-- The digits captured by `(\d+)` turned into a number (`parseInt`). -/
def digitsToNat (ds : List Char) : Nat :=
  ds.foldl (fun a c => 10 * a + (c.toNat - 48)) 0

/-- Try to match the branch-target pattern `/step (\d+)/i` at the head of
the character stream: the letters `s`,`t`,`e`,`p` case-insensitively, one
space, then one or more digits (maximal run, value via `parseInt`). -/
def matchStepAt : List Char → Option Nat
  | c1 :: c2 :: c3 :: c4 :: ' ' :: rest =>
    if c1.toLower = 's' && c2.toLower = 't' && c3.toLower = 'e' && c4.toLower = 'p' then
      match rest.takeWhile Char.isDigit with
      | [] => none
      | ds => some (digitsToNat ds)
    else none
  | _ => none

/-- Leftmost match of `/step (\d+)/i` over a character stream: the scan of
`String.prototype.match` with a non-global regex. -/
def scanTarget : List Char → Option Nat
  | [] => none
  | c :: tl =>
    match matchStepAt (c :: tl) with
    | some n => some n
    | none => scanTarget tl

/-- The branch resolver of `runWorkflowStep`:
`branchResult.match(/step (\d+)/i)` followed by `parseInt` on the capture,
yielding the target step id of a free-text branch decision, if any. -/
def resolveTarget (s : String) : Option Nat :=
  scanTarget s.data

/-- The action kinds of workflow steps (`ActionType` in `src/types/index.ts`). -/
inductive ActionType where
  | tool_call
  | analyze
  | consider
  | research
  | validate
  | summarize
  | decide
  | wait_for_input
  | transform
  | extract
  | compose
  | branch
  | loop
  | parallel
  | checkpoint
  | notify
  | assert
  | retry
deriving DecidableEq

/-- The wire string of an action kind. -/
def actionToString : ActionType → String
  | .tool_call => "tool_call"
  | .analyze => "analyze"
  | .consider => "consider"
  | .research => "research"
  | .validate => "validate"
  | .summarize => "summarize"
  | .decide => "decide"
  | .wait_for_input => "wait_for_input"
  | .transform => "transform"
  | .extract => "extract"
  | .compose => "compose"
  | .branch => "branch"
  | .loop => "loop"
  | .parallel => "parallel"
  | .checkpoint => "checkpoint"
  | .notify => "notify"
  | .assert => "assert"
  | .retry => "retry"

/-- The eight cognitive action kinds, as enumerated in the dispatch of
`generateStepInstructions`. -/
def isCognitive : ActionType → Bool
  | .analyze | .consider | .research | .validate | .summarize | .decide | .extract | .compose => true
  | _ => false

/-- A session's lifecycle state. -/
inductive SessionStatus where
  | active
  | completed
  | failed
deriving DecidableEq

/-- One branch condition (`{ if, goto_step }`). -/
structure BranchCondition where
  /-- The `if` field: the condition text shown to the agent. -/
  ifCond : String
  goto_step : Nat
deriving DecidableEq

/-- A workflow step.  The TypeScript `Step` is a discriminated union over an
open record; optional and variant-specific fields are modelled with
`Option`, `none` meaning the field is absent (`'field' in step` is false). -/
structure Step where
  id : Nat
  action : ActionType
  description : String
  save_result_as : Option String := none
  dependencies : Option (List Nat) := none
  show_all_variables : Option Bool := none
  tool_name : Option String := none
  parameters : Option Json := none
  input_from : Option (List String) := none
  criteria : Option String := none
  prompt : Option String := none
  input_type : Option String := none
  transformation : Option String := none
  conditions : Option (List BranchCondition) := none
  message : Option String := none
  channel : Option String := none
deriving DecidableEq

/-- A workflow definition, restricted to the fields the execution core
reads: `id`, `name`, the declared input-parameter names (in declaration
order), the `strict_dependencies` flag, and the ordered steps. -/
structure Workflow where
  id : String
  name : String
  inputs : Option (List String) := none
  strict_dependencies : Option Bool := none
  steps : List Step
deriving DecidableEq

/-- A recorded step output (`step_outputs[id] = {variable_name, value}`). -/
structure StepOutput where
  variable_name : String
  value : Json
deriving DecidableEq

/-- A workflow execution session (`WorkflowSession`). -/
structure Session where
  workflow_id : String
  execution_id : String
  workflow_name : String
  current_step_index : Nat
  total_steps : Nat
  /-- The session's `variables` map (`variables` is reserved in Lean). -/
  vars : List (String × Json)
  status : SessionStatus
  step_outputs : List (Nat × StepOutput)
  previous_variables : List (String × Json)
deriving DecidableEq

/-- The arguments of a `run_workflow_step` call (`RunWorkflowStepSchema`):
`step_result = none` models an absent (`undefined`) result. -/
structure RunArgs where
  execution_id : String
  step_result : Option Json := none
  next_step_needed : Bool
deriving DecidableEq

/-- The errors `runWorkflowStep` can throw.  `typeError` stands for the
JavaScript `TypeError` raised by reading a property of `undefined` when a
step index is out of range of the (possibly edited) stored definition. -/
inductive WfError where
  | sessionNotFound (execution_id : String)
  | workflowNotFound (workflow_id : String)
  | invalidBranchTarget (target : Nat)
  | typeError
deriving DecidableEq

/-- A successful `run_workflow_step` response: either the instruction text
for the next step, or the completion summary (status, execution id, message
and the final variables snapshot). -/
inductive StepOutcome where
  | instructions (text : String)
  | completed (execution_id : String) (message : String)
      (final_variables : List (String × Json))
deriving DecidableEq

/-- The input loop of `getVisibleVariables`: copy every listed workflow
input name that is a current key of the session variables into the
accumulator. -/
def foldInputs (vars : List (String × Json)) (acc : List (String × Json)) :
    List String → List (String × Json)
  | [] => acc
  | n :: ns =>
    match alistLookup vars n with
    | some v => foldInputs vars (alistSet acc n v) ns
    | none => foldInputs vars acc ns

/-- The dependency loop of `getVisibleVariables`: for each dependency step
id with a recorded output whose variable is a current key of the session
variables, copy that variable into the accumulator; ids with no recorded
output contribute nothing. -/
def foldDeps (vars : List (String × Json)) (outputs : List (Nat × StepOutput))
    (acc : List (String × Json)) : List Nat → List (String × Json)
  | [] => acc
  | stepId :: ids =>
    match alistLookup outputs stepId with
    | some output =>
        match alistLookup vars output.variable_name with
        | some v => foldDeps vars outputs (alistSet acc output.variable_name v) ids
        | none => foldDeps vars outputs acc ids
    | none => foldDeps vars outputs acc ids

deriving instance DecidableEq for Except

/-- `getVisibleVariables(workflow, step, session)` from `src/index.ts`:
the variables a step may see.  `show_all_variables` overrides everything;
without dependencies the strict flag decides between nothing and
everything; with dependencies the step sees the workflow inputs present in
the variables plus the recorded outputs of its dependency steps. -/
def getVisibleVariables (workflow : Workflow) (step : Step) (session : Session) :
    List (String × Json) :=
  if step.show_all_variables = some true then session.vars
  else
    let strictMode := workflow.strict_dependencies = some true
    match step.dependencies with
    | none => if strictMode then [] else session.vars
    | some [] => if strictMode then [] else session.vars
    | some deps =>
      let inputPart :=
        match workflow.inputs with
        | none => []
        | some names => foldInputs session.vars [] names
      foldDeps session.vars session.step_outputs inputPart deps

/-- The three lists produced by `getChangedVariables`. -/
structure VariableChanges where
  added : List String
  modified : List String
  unchanged : List String
deriving DecidableEq

/-- The classification loop of `getChangedVariables`: each variable entry is
`added` when its name is absent from the previous snapshot, `modified` when
present with a different `JSON.stringify` text, `unchanged` otherwise. -/
def classifyVars (prev : List (String × Json)) : List (String × Json) → VariableChanges
  | [] => ⟨[], [], []⟩
  | (k, v) :: tl =>
    let ch := classifyVars prev tl
    match alistLookup prev k with
    | none => ⟨k :: ch.added, ch.modified, ch.unchanged⟩
    | some w =>
        if Json.stringify v ≠ Json.stringify w then ⟨ch.added, k :: ch.modified, ch.unchanged⟩
        else ⟨ch.added, ch.modified, k :: ch.unchanged⟩

/-- `getChangedVariables(session)` from `src/index.ts`: classify the current
variables against `previous_variables`. -/
def getChangedVariables (session : Session) : VariableChanges :=
  classifyVars session.previous_variables session.vars

/-- A string in upper case (`step.action.toUpperCase()`). -/
def upperString (s : String) : String :=
  ⟨s.data.map Char.toUpper⟩

/-- Join lines with newlines (`lines.join('\n')`). -/
def joinLines : List String → String
  | [] => ""
  | [l] => l
  | l :: tl => l ++ "\n" ++ joinLines tl

/-- `JSON.stringify` of an optional value; an absent binding renders as
`undefined` inside a template literal. -/
def jsonOrUndefined : Option Json → String
  | some v => Json.stringify v
  | none => "undefined"

/-- The `input_from` listing: one line per named variable that is present
in the session variables (`session.variables[varName] !== undefined`). -/
def inputFromLines (vars : List (String × Json)) (names : List String) : List String :=
  names.filterMap (fun n =>
    match alistLookup vars n with
    | some v => some ("  " ++ n ++ ": " ++ Json.stringify v)
    | none => none)

/-- The action-specific block of `generateStepInstructions` (the
`if`/`else if` dispatch on `step.action` plus field-presence checks). -/
def stepActionLines (step : Step) (vars : List (String × Json)) : List String :=
  if step.action = ActionType.tool_call then
    match step.tool_name, step.parameters with
    | some tn, some ps =>
        ["Execute the following tool:", "Tool: " ++ tn,
         "Parameters: " ++ Json.stringifyIndent 0 (resolveTemplateInObject vars ps)]
    | _, _ => []
  else if isCognitive step.action then
    ["Perform the cognitive action: " ++ actionToString step.action]
    ++ (match step.input_from with
        | some names => "Using input from:" :: inputFromLines vars names
        | none => [])
    ++ (match step.criteria with
        | some c => if c ≠ "" then ["Criteria: " ++ resolveTemplateVariables c vars] else []
        | none => [])
  else if step.action = ActionType.wait_for_input then
    match step.prompt with
    | some p =>
        ["Request input from the user:", "Prompt: " ++ resolveTemplateVariables p vars]
        ++ (match step.input_type with
            | some it => ["Expected type: " ++ it]
            | none => [])
    | none => []
  else if step.action = ActionType.transform then
    match step.transformation with
    | some t =>
        ["Apply transformation:", resolveTemplateVariables t vars]
        ++ (match step.input_from with
            | some names => "To variables:" :: inputFromLines vars names
            | none => [])
    | none => []
  else if step.action = ActionType.branch then
    match step.conditions with
    | some conds =>
        ["Evaluate conditions and determine next step:", ""]
        ++ conds.map (fun c => "IF " ++ c.ifCond ++ " THEN GOTO step " ++ toString c.goto_step)
        ++ ["", "Evaluate the conditions using the current variables and respond with:",
            "- Which condition is true",
            "- The step number to jump to (e.g., \"Branching to step 8\")"]
    | none => []
  else if step.action = ActionType.notify then
    match step.message with
    | some m =>
        ["Send notification:", "Message: " ++ resolveTemplateVariables m vars]
        ++ (match step.channel with
            | some ch => if ch ≠ "" then ["Channel: " ++ resolveTemplateVariables ch vars] else []
            | none => [])
    | none => []
  else []

/-- The `Save the result as:` block (emitted when `step.save_result_as` is
truthy, i.e. present and non-empty). -/
def saveResultLines (step : Step) : List String :=
  match step.save_result_as with
  | some v => if v ≠ "" then ["", "Save the result as: " ++ v] else []
  | none => []

/-- The `Variable changes:` block: shown only past step 0 with a non-empty
previous snapshot, listing added (`+`) and modified (`~`) names filtered to
the step's visible variables. -/
def variableChangesLines (session : Session) (visible : List (String × Json)) : List String :=
  if session.current_step_index > 0 && !session.previous_variables.isEmpty then
    let changes := getChangedVariables session
    if !changes.added.isEmpty || !changes.modified.isEmpty then
      ["", "Variable changes:"]
      ++ changes.added.filterMap (fun n =>
          if alistHasKey visible n then
            some ("  + " ++ n ++ ": " ++ jsonOrUndefined (alistLookup session.vars n))
          else none)
      ++ changes.modified.filterMap (fun n =>
          if alistHasKey visible n then
            some ("  ~ " ++ n ++ ": " ++ jsonOrUndefined (alistLookup session.vars n))
          else none)
    else []
  else []

/-- The `Available variables:` block, with an explicit `(none ...)` marker
when the visible set is empty. -/
def availableVariablesLines (visible : List (String × Json)) : List String :=
  ["", "Available variables:"]
  ++ (if visible.isEmpty then
        ["  (none - use dependencies to access previous step outputs)"]
      else visible.map (fun kv => "  " ++ kv.1 ++ ": " ++ Json.stringify kv.2))

/-- The `Upcoming steps:` preview block of `generateStepInstructions`
(lines 843-855 of `src/index.ts`): emitted when the current step is not the
last; iterates `i` from `current_step_index + 1` up to but excluding
`maxPreview = min(current_step_index + 3, steps.length)`, then appends a
`... and N more steps` remainder when `maxPreview < steps.length`. -/
def upcomingStepsLines (workflow : Workflow) (session : Session) : List String :=
  if session.current_step_index < workflow.steps.length - 1 then
    let maxPreview := min (session.current_step_index + 3) workflow.steps.length
    ["", "Upcoming steps:"]
    ++ (List.range' (session.current_step_index + 1)
          (maxPreview - (session.current_step_index + 1))).map (fun i =>
        match workflow.steps.get? i with
        | some s => "  " ++ toString (i + 1) ++ ". " ++ actionToString s.action ++ ": " ++
            s.description
        | none => "")
    ++ (if maxPreview < workflow.steps.length then
          ["  ... and " ++ toString (workflow.steps.length - maxPreview) ++ " more steps"]
        else [])
  else []

/-- The closing boilerplate of every instruction block. -/
def footerLines (session : Session) : List String :=
  ["", "After completing this step, call run_workflow_step with:",
   "- execution_id: " ++ session.execution_id,
   "- step_result: <the result of this step, if any>",
   "- next_step_needed: true (or false if the workflow should end)"]

/-- The opening lines of every instruction block. -/
def headerLines (workflow : Workflow) (step : Step) (session : Session) : List String :=
  ["=== WORKFLOW STEP EXECUTION ===", "",
   "Workflow: " ++ workflow.name ++ " (" ++ session.execution_id ++ ")",
   "Step " ++ toString (session.current_step_index + 1) ++ " of " ++
     toString session.total_steps,
   "",
   "Action: " ++ upperString (actionToString step.action),
   "Description: " ++ resolveTemplateVariables step.description session.vars,
   ""]

/-- `generateStepInstructions(workflow, step, session)` from `src/index.ts`:
the full deterministic text block returned for a step. -/
def generateStepInstructions (workflow : Workflow) (step : Step) (session : Session) : String :=
  let visibleVariables := getVisibleVariables workflow step session
  joinLines
    (headerLines workflow step session
     ++ stepActionLines step session.vars
     ++ saveResultLines step
     ++ variableChangesLines session visibleVariables
     ++ availableVariablesLines visibleVariables
     ++ upcomingStepsLines workflow session
     ++ footerLines session)

/-- `workflow.steps.findIndex(s => s.id === targetStep)`, as an `Option`
(`none` for `-1`). -/
def findIndexById : List Step → Nat → Option Nat
  | [], _ => none
  | s :: tl, target =>
      if s.id = target then some 0 else (findIndexById tl target).map (fun i => i + 1)

/-- Lines 557-573 of `src/index.ts`: if a `step_result` was supplied and
`current_step_index > 0`, the result is attributed to
`workflow.steps[current_step_index - 1]`; when that step declares a truthy
`save_result_as`, the output is recorded, the previous-variables snapshot
is taken, and the variable is written.  Reading past the end of the stored
steps raises a `TypeError`. -/
def applyStepResult (workflow : Workflow) (args : RunArgs) (session : Session) :
    Except WfError Session :=
  match args.step_result with
  | none => .ok session
  | some result =>
    if session.current_step_index > 0 then
      match workflow.steps.get? (session.current_step_index - 1) with
      | none => .error .typeError
      | some previousStep =>
        match previousStep.save_result_as with
        | some varName =>
            if varName = "" then .ok session
            else
              .ok { session with
                    step_outputs :=
                      alistSet session.step_outputs previousStep.id ⟨varName, result⟩,
                    previous_variables := session.vars,
                    vars := alistSet session.vars varName result }
        | none => .ok session
    else .ok session

/-- Lines 596-612 of `src/index.ts`: the next step index.  A truthy step
result on a branch step is parsed for a target id; a parsed id must name an
existing step or the call fails with `InvalidBranchTarget`; otherwise the
cursor advances sequentially. -/
def computeNextIndex (workflow : Workflow) (currentStep : Step) (args : RunArgs)
    (session : Session) : Except WfError Nat :=
  match args.step_result with
  | some r =>
      if currentStep.action = ActionType.branch && r.truthy then
        match resolveTarget (Json.toJSString r) with
        | some targetStep =>
            match findIndexById workflow.steps targetStep with
            | some idx => .ok idx
            | none => .error (.invalidBranchTarget targetStep)
        | none => .ok (session.current_step_index + 1)
      else .ok (session.current_step_index + 1)
  | none => .ok (session.current_step_index + 1)

/-- The completion summary: the session is marked completed and removed
from the registry, and the response carries the final variables snapshot. -/
def completionResult (workflow : Workflow) (args : RunArgs) (session : Session)
    (sessions : List (String × Session)) :
    Except WfError StepOutcome × List (String × Session) :=
  let finished := { session with status := SessionStatus.completed }
  (.ok (.completed args.execution_id
          ("Workflow \"" ++ workflow.name ++ "\" completed successfully")
          finished.vars),
   alistErase sessions args.execution_id)

/-- The advance logic after the step-result recording: completion check A
(line 576), branch resolution, cursor update, completion check B (line
617), and instruction generation for the new current step. -/
def advanceCore (workflow : Workflow) (args : RunArgs) (session₁ : Session)
    (sessions₁ : List (String × Session)) :
    Except WfError StepOutcome × List (String × Session) :=
  if !args.next_step_needed || workflow.steps.length ≤ session₁.current_step_index then
    completionResult workflow args session₁ sessions₁
  else
    match workflow.steps.get? session₁.current_step_index with
    | none => (.error .typeError, sessions₁)
    | some currentStep =>
      match computeNextIndex workflow currentStep args session₁ with
      | .error e => (.error e, sessions₁)
      | .ok nextStepIndex =>
        let session₂ := { session₁ with current_step_index := nextStepIndex }
        let sessions₂ := alistSet sessions₁ args.execution_id session₂
        if workflow.steps.length ≤ nextStepIndex then
          completionResult workflow args session₂ sessions₂
        else
          match workflow.steps.get? nextStepIndex with
          | none => (.error .typeError, sessions₂)
          | some nextStep =>
              (.ok (.instructions (generateStepInstructions workflow nextStep session₂)),
               sessions₂)

/-- `runWorkflowStep(args)` from `src/index.ts`: look up the session by
execution id, re-fetch the workflow definition from storage by the
session's workflow id, record the supplied step result, then advance.
Because the session object is mutated in place before any branch
resolution, the returned registry reflects the recording even when the
call fails; a thrown error leaves the session registered. -/
def runWorkflowStep (storage : List (String × Workflow)) (sessions : List (String × Session))
    (args : RunArgs) : Except WfError StepOutcome × List (String × Session) :=
  match alistLookup sessions args.execution_id with
  | none => (.error (.sessionNotFound args.execution_id), sessions)
  | some session =>
    match alistLookup storage session.workflow_id with
    | none => (.error (.workflowNotFound session.workflow_id), sessions)
    | some workflow =>
      match applyStepResult workflow args session with
      | .error e => (.error e, sessions)
      | .ok session₁ =>
          let sessions₁ := alistSet sessions args.execution_id session₁
          advanceCore workflow args session₁ sessions₁

theorem tryToken_sound (cs w rest2 : List Char) (h : tryToken cs = some (w, rest2)) :
    cs = '\x7b' :: '\x7b' :: (w ++ '\x7d' :: '\x7d' :: rest2) ∧ w ≠ [] := by
  unfold tryToken at h
  split at h
  next rest =>
    split at h
    next => simp at h
    next rest2x hdrop =>
      rename_i hne
      simp only [Option.some.injEq, Prod.mk.injEq] at h
      obtain ⟨hw, hr⟩ := h
      subst hr
      constructor
      · have hsplit := List.takeWhile_append_dropWhile (p := isWordChar) (l := rest)
        rw [hw, rest2x] at hsplit
        rw [← hsplit]
      · intro hnil
        apply hdrop
        rw [hw, hnil]
    next => simp at h
  next => simp at h

theorem resolveCharsFuel_of_noMatch (vars : List (String × Json)) :
    ∀ fuel cs, cs.length ≤ fuel → hasMatchingTokenFuel vars fuel cs = false →
      resolveCharsFuel vars fuel cs = cs := by
  intro fuel
  induction fuel with
  | zero => intro cs _ _; rfl
  | succ fuel ih =>
      intro cs hlen hno
      cases htt : tryToken cs with
      | some pr =>
          obtain ⟨w, rest⟩ := pr
          obtain ⟨hcs, hwne⟩ := tryToken_sound cs w rest htt
          have hkey : alistHasKey vars (⟨w⟩ : String) = false := by
            simp only [hasMatchingTokenFuel, htt, Bool.or_eq_false_iff] at hno
            exact hno.1
          have hrest : hasMatchingTokenFuel vars fuel rest = false := by
            simp only [hasMatchingTokenFuel, htt, Bool.or_eq_false_iff] at hno
            exact hno.2
          have hrlen : rest.length ≤ fuel := by
            have : cs.length = rest.length + w.length + 4 := by
              subst hcs; simp [List.length_append]; omega
            have hw1 : 1 ≤ w.length := by
              cases w with
              | nil => exact absurd rfl hwne
              | cons _ _ => simp
            omega
          have hlook : alistLookup vars (⟨w⟩ : String) = none := by
            unfold alistHasKey at hkey
            cases hl : alistLookup vars (⟨w⟩ : String) with
            | none => rfl
            | some _ => rw [hl] at hkey; simp at hkey
          simp only [resolveCharsFuel, htt, hlook, ih rest hrlen hrest]
          rw [hcs]
      | none =>
          cases cs with
          | nil => rfl
          | cons c tl =>
              have htl : hasMatchingTokenFuel vars fuel tl = false := by
                simp only [hasMatchingTokenFuel, htt] at hno
                exact hno
              have htllen : tl.length ≤ fuel := by
                simp only [List.length_cons] at hlen; omega
              simp only [resolveCharsFuel, htt, ih tl htllen htl]

theorem resolveTemplateVariables_of_noMatch (s : String) (vars : List (String × Json))
    (h : hasMatchingToken s vars = false) : resolveTemplateVariables s vars = s := by
  unfold resolveTemplateVariables
  rw [resolveCharsFuel_of_noMatch vars s.data.length s.data (le_refl _) h]

mutual
theorem resolveJson_of_noPending (vars : List (String × Json)) :
    ∀ j : Json, Json.hasPendingTemplate vars j = false → resolveTemplateInObject vars j = j
  | .null, _ => rfl
  | .bool _, _ => rfl
  | .num _, _ => rfl
  | .str s, h => by
      simp only [Json.hasPendingTemplate] at h
      simp only [resolveTemplateInObject, resolveTemplateVariables_of_noMatch s vars h]
  | .arr xs, h => by
      simp only [Json.hasPendingTemplate] at h
      simp only [resolveTemplateInObject, resolveArr_of_noPending vars xs h]
  | .obj fs, h => by
      simp only [Json.hasPendingTemplate] at h
      simp only [resolveTemplateInObject, resolveFields_of_noPending vars fs h]

theorem resolveArr_of_noPending (vars : List (String × Json)) :
    ∀ xs : JsonArr, JsonArr.hasPendingTemplate vars xs = false →
      resolveTemplateInArr vars xs = xs
  | .nil, _ => rfl
  | .cons x tl, h => by
      simp only [JsonArr.hasPendingTemplate, Bool.or_eq_false_iff] at h
      simp only [resolveTemplateInArr, resolveJson_of_noPending vars x h.1,
        resolveArr_of_noPending vars tl h.2]

theorem resolveFields_of_noPending (vars : List (String × Json)) :
    ∀ fs : JsonObj, JsonObj.hasPendingTemplate vars fs = false →
      resolveTemplateInFields vars fs = fs
  | .nil, _ => rfl
  | .cons k v tl, h => by
      simp only [JsonObj.hasPendingTemplate, Bool.or_eq_false_iff] at h
      simp only [resolveTemplateInFields, resolveJson_of_noPending vars v h.1.2,
        resolveFields_of_noPending vars tl h.2]
end

/-- C9: template resolution is idempotent once no further tokens match:
whenever `resolveTemplateInObject(x, vars)` contains no remaining
`\x7b\x7bname\x7d\x7d` token whose name is a key of `vars`, resolving a
second time makes no change (no double substitution). -/
theorem c9_resolve_idempotent (x : Json) (vars : List (String × Json))
    (h : Json.hasPendingTemplate vars (resolveTemplateInObject vars x) = false) :
    resolveTemplateInObject vars (resolveTemplateInObject vars x) =
      resolveTemplateInObject vars x :=
  resolveJson_of_noPending vars (resolveTemplateInObject vars x) h

/-- C9 witness: a concrete value whose resolution leaves no matching token,
on which the theorem yields idempotence. -/
theorem c9_resolve_idempotent_witness :
    Json.hasPendingTemplate [("name", Json.str "world")]
        (resolveTemplateInObject [("name", Json.str "world")]
          (Json.str "hello \x7b\x7bname\x7d\x7d, \x7b\x7bmiss\x7d\x7d")) = false ∧
      resolveTemplateInObject [("name", Json.str "world")]
          (resolveTemplateInObject [("name", Json.str "world")]
            (Json.str "hello \x7b\x7bname\x7d\x7d, \x7b\x7bmiss\x7d\x7d")) =
        resolveTemplateInObject [("name", Json.str "world")]
          (Json.str "hello \x7b\x7bname\x7d\x7d, \x7b\x7bmiss\x7d\x7d") :=
  ⟨by decide, c9_resolve_idempotent _ _ (by decide)⟩

theorem scanTarget_first : ∀ (cs : List Char) (k n : Nat),
    matchStepAt (cs.drop k) = some n → (∀ j, j < k → matchStepAt (cs.drop j) = none) →
    scanTarget cs = some n := by
  intro cs
  induction cs with
  | nil =>
      intro k n hocc _
      simp only [List.drop_nil] at hocc
      simp [matchStepAt] at hocc
  | cons c tl ih =>
      intro k n hocc hfirst
      cases k with
      | zero =>
          simp only [List.drop_zero] at hocc
          simp only [scanTarget, hocc]
      | succ k' =>
          have hhead : matchStepAt (c :: tl) = none := by
            have := hfirst 0 (Nat.succ_pos k')
            simpa using this
          have htl : matchStepAt (tl.drop k') = some n := by
            simpa using hocc
          have hfirst' : ∀ j, j < k' → matchStepAt (tl.drop j) = none := by
            intro j hj
            have := hfirst (j + 1) (Nat.succ_lt_succ hj)
            simpa using this
          simp only [scanTarget, hhead]
          exact ih k' n htl hfirst'

/-- C10: for a branch step with a truthy supplied result, the chosen branch
target is the number of the first (leftmost) occurrence of the pattern
`step <digits>` (case-insensitive, single space) in the result text; every
later occurrence is ignored.  The cursor computation then uses exactly that
target: it jumps to the position of the step with that id, or fails with
`InvalidBranchTarget` if no step has it. -/
theorem c10_branch_first_occurrence
    (workflow : Workflow) (args : RunArgs) (session : Session) (currentStep : Step)
    (r : Json) (k n : Nat)
    (hres : args.step_result = some r)
    (hact : currentStep.action = ActionType.branch)
    (htr : r.truthy = true)
    (hocc : matchStepAt ((Json.toJSString r).data.drop k) = some n)
    (hfirst : ∀ j, j < k → matchStepAt ((Json.toJSString r).data.drop j) = none) :
    resolveTarget (Json.toJSString r) = some n ∧
      computeNextIndex workflow currentStep args session =
        (match findIndexById workflow.steps n with
         | some idx => .ok idx
         | none => .error (.invalidBranchTarget n)) := by
  have h1 : resolveTarget (Json.toJSString r) = some n :=
    scanTarget_first ((Json.toJSString r).data) k n hocc hfirst
  refine ⟨h1, ?_⟩
  unfold computeNextIndex
  rw [hres]
  simp only [hact, htr, Bool.and_self, if_pos, h1]
  rfl

/-- C10 witness: the decision text names step 3 first and step 5 later; the
first occurrence wins, and the cursor moves to the position of step id 3. -/
theorem c10_branch_first_occurrence_witness :
    resolveTarget (Json.toJSString (Json.str "go to step 3 otherwise STEP 5")) = some 3 ∧
      computeNextIndex
        { id := "w", name := "W",
          steps := [{ id := 3, action := ActionType.notify, description := "n" },
                    { id := 5, action := ActionType.notify, description := "m" },
                    { id := 7, action := ActionType.branch, description := "b" }] }
        { id := 7, action := ActionType.branch, description := "b" }
        { execution_id := "e", step_result := some (Json.str "go to step 3 otherwise STEP 5"),
          next_step_needed := true }
        { workflow_id := "w", execution_id := "e", workflow_name := "W",
          current_step_index := 2, total_steps := 3, vars := [],
          status := SessionStatus.active, step_outputs := [], previous_variables := [] } =
        Except.ok 0 := by
  have h := c10_branch_first_occurrence
    { id := "w", name := "W",
      steps := [{ id := 3, action := ActionType.notify, description := "n" },
                { id := 5, action := ActionType.notify, description := "m" },
                { id := 7, action := ActionType.branch, description := "b" }] }
    { execution_id := "e", step_result := some (Json.str "go to step 3 otherwise STEP 5"),
      next_step_needed := true }
    { workflow_id := "w", execution_id := "e", workflow_name := "W",
      current_step_index := 2, total_steps := 3, vars := [],
      status := SessionStatus.active, step_outputs := [], previous_variables := [] }
    { id := 7, action := ActionType.branch, description := "b" }
    (Json.str "go to step 3 otherwise STEP 5") 6 3
    rfl rfl (by decide) (by decide) (by decide)
  exact ⟨h.1, by rw [h.2]; rfl⟩

theorem alistLookup_mem {κ α : Type} [DecidableEq κ] (m : List (κ × α)) (k : κ) (v : α)
    (h : alistLookup m k = some v) : (k, v) ∈ m := by
  induction m with
  | nil => simp [alistLookup] at h
  | cons hd tl ih =>
      obtain ⟨k₀, v₀⟩ := hd
      by_cases h₀ : k₀ = k
      · subst h₀
        rw [show alistLookup ((k₀, v₀) :: tl) k₀ = some v₀ from by simp [alistLookup]] at h
        injection h with h
        subst h
        exact List.mem_cons_self _ _
      · simp only [alistLookup, if_neg h₀] at h
        exact List.mem_cons.mpr (Or.inr (ih h))

theorem lookup_foldInputs (vars acc : List (String × Json)) (names : List String) (a : String) :
    alistLookup (foldInputs vars acc names) a =
      if a ∈ names ∧ alistHasKey vars a = true then alistLookup vars a
      else alistLookup acc a := by
  induction names generalizing acc with
  | nil => simp [foldInputs]
  | cons n ns ih =>
      cases hl : alistLookup vars n with
      | some v =>
          simp only [foldInputs, hl, ih, alistLookup_set]
          by_cases h3 : n = a
          · subst h3
            have hkey : alistHasKey vars n = true := by simp [alistHasKey, hl]
            simp [List.mem_cons, hkey, hl]
          · have hne : ¬a = n := fun hh => h3 hh.symm
            simp [List.mem_cons, hne, h3]
      | none =>
          simp only [foldInputs, hl, ih]
          by_cases h3 : a = n
          · subst h3
            have hkey : alistHasKey vars a = false := by simp [alistHasKey, hl]
            simp [hkey]
          · simp [List.mem_cons, h3]

/-- Does dependency step id `stepId` currently contribute the variable `a`:
it has a recorded output naming `a` that is a current session variable. -/
def depWrites (vars : List (String × Json)) (outputs : List (Nat × StepOutput))
    (a : String) (stepId : Nat) : Bool :=
  match alistLookup outputs stepId with
  | some output => output.variable_name = a && alistHasKey vars a
  | none => false

theorem lookup_foldDeps (vars : List (String × Json)) (outputs : List (Nat × StepOutput))
    (acc : List (String × Json)) (ids : List Nat) (a : String) :
    alistLookup (foldDeps vars outputs acc ids) a =
      if ids.any (depWrites vars outputs a) then alistLookup vars a
      else alistLookup acc a := by
  induction ids generalizing acc with
  | nil => simp [foldDeps]
  | cons stepId ids ih =>
      cases ho : alistLookup outputs stepId with
      | none =>
          have hdw : depWrites vars outputs a stepId = false := by simp [depWrites, ho]
          simp only [foldDeps, ho, ih, List.any_cons, hdw, Bool.false_or]
      | some output =>
          cases hv : alistLookup vars output.variable_name with
          | none =>
              have hdw : depWrites vars outputs a stepId = false := by
                by_cases hn : output.variable_name = a
                · subst hn
                  simp [depWrites, ho, alistHasKey, hv]
                · simp [depWrites, ho, hn]
              simp only [foldDeps, ho, hv, ih, List.any_cons, hdw, Bool.false_or]
          | some v =>
              simp only [foldDeps, ho, hv, ih, List.any_cons]
              by_cases hany : ids.any (depWrites vars outputs a) = true
              · simp [hany]
              · simp only [Bool.or_eq_true, hany, or_false]
                by_cases hn : output.variable_name = a
                · subst hn
                  have hkey : alistHasKey vars output.variable_name = true := by
                    simp [alistHasKey, hv]
                  have hdw : depWrites vars outputs output.variable_name stepId = true := by
                    simp [depWrites, ho, hkey]
                  rw [alistLookup_set]
                  simp [hdw, hv]
                · have hdw : depWrites vars outputs a stepId = false := by
                    simp [depWrites, ho, hn]
                  rw [alistLookup_set]
                  simp [hdw, show output.variable_name ≠ a from hn]

/-- Has dependency step id `stepId` already produced an output named `a`? -/
def depProvides (outputs : List (Nat × StepOutput)) (a : String) (stepId : Nat) : Bool :=
  match alistLookup outputs stepId with
  | some output => output.variable_name = a
  | none => false

theorem any_depWrites_iff (vars : List (String × Json)) (outputs : List (Nat × StepOutput))
    (hwf : ∀ p ∈ outputs, alistHasKey vars p.2.variable_name = true)
    (deps : List Nat) (a : String) :
    deps.any (depWrites vars outputs a) = true ↔
      ∃ stepId ∈ deps, depProvides outputs a stepId = true := by
  rw [List.any_eq_true]
  constructor
  · rintro ⟨stepId, hid, hdw⟩
    refine ⟨stepId, hid, ?_⟩
    unfold depWrites at hdw
    unfold depProvides
    cases ho : alistLookup outputs stepId with
    | none => rw [ho] at hdw; simp at hdw
    | some output =>
        rw [ho] at hdw
        simp only [Bool.and_eq_true, decide_eq_true_eq] at hdw
        simp [hdw.1]
  · rintro ⟨stepId, hid, hdp⟩
    refine ⟨stepId, hid, ?_⟩
    unfold depProvides at hdp
    unfold depWrites
    cases ho : alistLookup outputs stepId with
    | none => rw [ho] at hdp; simp at hdp
    | some output =>
        rw [ho] at hdp
        simp only [decide_eq_true_eq] at hdp
        have hkey := hwf (stepId, output) (alistLookup_mem outputs stepId output ho)
        rw [hdp] at hkey
        simp [hdp, hkey]

/-- C5: the visible-variable computation.  (1) `show_all_variables = true`
returns all of the session variables regardless of dependencies or the
strict flag.  (2) Absent or empty `dependencies` return nothing when
`strict_dependencies` is true and all variables otherwise.  (3) Non-empty
`dependencies` return exactly the union of every workflow input name that
is a current key of the variables and, for each listed dependency id that
has produced output, the variable recorded for that id; ids without
recorded output contribute nothing.  The hypothesis is the session
invariant that every recorded output names a current variable. -/
theorem c5_visible_variables (workflow : Workflow) (step : Step) (session : Session)
    (hwf : ∀ p ∈ session.step_outputs, alistHasKey session.vars p.2.variable_name = true) :
    (step.show_all_variables = some true →
      getVisibleVariables workflow step session = session.vars) ∧
    (step.show_all_variables ≠ some true →
      (step.dependencies = none ∨ step.dependencies = some []) →
      getVisibleVariables workflow step session =
        if workflow.strict_dependencies = some true then [] else session.vars) ∧
    (∀ deps a, step.show_all_variables ≠ some true → step.dependencies = some deps →
      deps ≠ [] →
      alistLookup (getVisibleVariables workflow step session) a =
        if (a ∈ workflow.inputs.getD [] ∧ alistHasKey session.vars a = true)
            ∨ (∃ stepId ∈ deps, depProvides session.step_outputs a stepId = true)
        then alistLookup session.vars a else none) := by
  refine ⟨fun hshow => ?_, fun hshow hdep => ?_, fun deps a hshow hdep hne => ?_⟩
  · simp [getVisibleVariables, hshow]
  · rcases hdep with hdep | hdep <;> simp [getVisibleVariables, hshow, hdep]
  · cases deps with
    | nil => exact absurd rfl hne
    | cons d ds =>
        have hvis : getVisibleVariables workflow step session =
            foldDeps session.vars session.step_outputs
              (match workflow.inputs with
               | none => []
               | some names => foldInputs session.vars [] names) (d :: ds) := by
          simp [getVisibleVariables, hshow, hdep]
        rw [hvis, lookup_foldDeps]
        have hiff := any_depWrites_iff session.vars session.step_outputs hwf (d :: ds) a
        by_cases hany : (d :: ds).any (depWrites session.vars session.step_outputs a) = true
        · have hdp : ∃ stepId ∈ d :: ds, depProvides session.step_outputs a stepId = true :=
            hiff.mp hany
          rw [if_pos hany, if_pos (Or.inr hdp)]
        · have hdp : ¬∃ stepId ∈ d :: ds, depProvides session.step_outputs a stepId = true :=
            fun hc => hany (hiff.mpr hc)
          rw [if_neg hany]
          cases hin : workflow.inputs with
          | none =>
              have hcond : ¬((a ∈ (none : Option (List String)).getD [] ∧
                  alistHasKey session.vars a = true) ∨
                  (∃ stepId ∈ d :: ds, depProvides session.step_outputs a stepId = true)) := by
                rintro (⟨hmem, _⟩ | hex)
                · simp at hmem
                · exact hdp hex
              rw [if_neg hcond]
              rfl
          | some names =>
              change alistLookup (foldInputs session.vars [] names) a = _
              rw [lookup_foldInputs]
              by_cases hinc : a ∈ names ∧ alistHasKey session.vars a = true
              · rw [if_pos hinc, if_pos (Or.inl (by simpa using hinc))]
              · rw [if_neg hinc]
                rw [show alistLookup ([] : List (String × Json)) a = none from rfl]
                rw [if_neg]
                rintro (hmem | hex)
                · exact hinc (by simpa using hmem)
                · exact hdp hex

/-- C5 witness: a step depending on step 1, which produced variable `y`;
the visible set maps `y` to its current value. -/
theorem c5_visible_variables_witness :
    alistLookup
      (getVisibleVariables
        { id := "w", name := "W", inputs := some ["x"],
          steps := [{ id := 1, action := ActionType.analyze, description := "a" }] }
        { id := 2, action := ActionType.analyze, description := "b", dependencies := some [1] }
        { workflow_id := "w", execution_id := "e", workflow_name := "W",
          current_step_index := 1, total_steps := 2,
          vars := [("x", Json.num 7), ("y", Json.num 8)],
          status := SessionStatus.active,
          step_outputs := [(1, { variable_name := "y", value := Json.num 8 })],
          previous_variables := [] }) ("y") = some (Json.num 8) := by
  have h := (c5_visible_variables
    { id := "w", name := "W", inputs := some ["x"],
      steps := [{ id := 1, action := ActionType.analyze, description := "a" }] }
    { id := 2, action := ActionType.analyze, description := "b", dependencies := some [1] }
    { workflow_id := "w", execution_id := "e", workflow_name := "W",
      current_step_index := 1, total_steps := 2,
      vars := [("x", Json.num 7), ("y", Json.num 8)],
      status := SessionStatus.active,
      step_outputs := [(1, { variable_name := "y", value := Json.num 8 })],
      previous_variables := [] }
    (by decide)).2.2 [1] ("y") (by decide) rfl (by decide)
  rw [h]
  decide

/-- Lexicographic order on character lists by code point, used only to fix
a canonical order of object keys. -/
def charListLe : List Char → List Char → Bool
  | [], _ => true
  | _ :: _, [] => false
  | c :: cs, d :: ds =>
      if c.toNat < d.toNat then true
      else if d.toNat < c.toNat then false
      else charListLe cs ds

/-- Key order for the canonical serialization. -/
def keyLe (a b : String) : Bool :=
  charListLe a.data b.data

/-- Insertion into a key-sorted field list. -/
def insertField (k : String) (v : Json) : JsonObj → JsonObj
  | .nil => .cons k v .nil
  | .cons k' v' tl =>
      if keyLe k k' then .cons k v (.cons k' v' tl) else .cons k' v' (insertField k v tl)

/-- Sort object fields by key. -/
def sortFields : JsonObj → JsonObj
  | .nil => .nil
  | .cons k v tl => insertField k v (sortFields tl)

mutual
/-- Modelled from the spec: the canonical form behind the spec's "canonical
JSON serialization (array order matters, object key order does not)" —
arrays keep their order, object fields are recursively sorted by key. -/
def Json.canonicalize : Json → Json
  | .null => .null
  | .bool b => .bool b
  | .num n => .num n
  | .str s => .str s
  | .arr xs => .arr (JsonArr.canonicalize xs)
  | .obj fs => .obj (sortFields (JsonObj.canonicalize fs))

/-- Canonicalize every array item. -/
def JsonArr.canonicalize : JsonArr → JsonArr
  | .nil => .nil
  | .cons x tl => .cons (Json.canonicalize x) (JsonArr.canonicalize tl)

/-- Canonicalize every field value. -/
def JsonObj.canonicalize : JsonObj → JsonObj
  | .nil => .nil
  | .cons k v tl => .cons k (Json.canonicalize v) (JsonObj.canonicalize tl)
end

/-- Modelled from the spec: the canonical JSON serialization the spec's
differential-state rule refers to (object key order insensitive, array
order sensitive). -/
def canonicalStringify (v : Json) : String :=
  Json.stringify (Json.canonicalize v)

theorem mem_classify_added (prev : List (String × Json)) (m : List (String × Json))
    (a : String) :
    a ∈ (classifyVars prev m).added ↔
      a ∈ m.map Prod.fst ∧ alistLookup prev a = none := by
  induction m with
  | nil => simp [classifyVars]
  | cons hd tl ih =>
      obtain ⟨k, v⟩ := hd
      by_cases hak : a = k
      · subst hak
        cases hl : alistLookup prev a with
        | none =>
            simp only [classifyVars, hl, List.mem_cons, List.map_cons]
            simp [ih, hl]
        | some w =>
            simp only [classifyVars, hl, List.map_cons]
            by_cases hdiff : Json.stringify v ≠ Json.stringify w <;>
              simp [hdiff, ih, hl]
      · cases hl : alistLookup prev k with
        | none =>
            simp only [classifyVars, hl, List.map_cons]
            simp [List.mem_cons, hak, ih]
        | some w =>
            simp only [classifyVars, hl, List.map_cons]
            by_cases hdiff : Json.stringify v ≠ Json.stringify w <;>
              simp [hdiff, List.mem_cons, hak, ih]

theorem mem_classify_modified (prev m : List (String × Json))
    (huniq : (m.map Prod.fst).Nodup) (a : String) :
    a ∈ (classifyVars prev m).modified ↔
      ∃ v w, alistLookup m a = some v ∧ alistLookup prev a = some w ∧
        Json.stringify v ≠ Json.stringify w := by
  induction m with
  | nil => simp [classifyVars, alistLookup]
  | cons hd tl ih =>
      obtain ⟨k, v⟩ := hd
      simp only [List.map_cons, List.nodup_cons] at huniq
      have ihtl := ih huniq.2
      by_cases hak : a = k
      · subst hak
        have htlnone : alistLookup tl a = none :=
          alistLookup_eq_none_of_not_mem tl a huniq.1
        have hlm : alistLookup ((a, v) :: tl) a = some v := by simp [alistLookup]
        cases hl : alistLookup prev a with
        | none => simp [classifyVars, hl, ihtl, htlnone, hlm]
        | some w =>
            by_cases hdiff : Json.stringify v = Json.stringify w <;>
              simp [classifyVars, hl, hdiff, ihtl, htlnone, hlm]
      · have hka : ¬k = a := fun hh => hak hh.symm
        have hlm : alistLookup ((k, v) :: tl) a = alistLookup tl a := by
          simp [alistLookup, hka]
        cases hl : alistLookup prev k with
        | none => simp [classifyVars, hl, ihtl, hlm]
        | some w =>
            by_cases hdiff : Json.stringify v = Json.stringify w <;>
              simp [classifyVars, hl, hdiff, ihtl, hlm, hak]

theorem mem_classify_unchanged (prev m : List (String × Json))
    (huniq : (m.map Prod.fst).Nodup) (a : String) :
    a ∈ (classifyVars prev m).unchanged ↔
      ∃ v w, alistLookup m a = some v ∧ alistLookup prev a = some w ∧
        Json.stringify v = Json.stringify w := by
  induction m with
  | nil => simp [classifyVars, alistLookup]
  | cons hd tl ih =>
      obtain ⟨k, v⟩ := hd
      simp only [List.map_cons, List.nodup_cons] at huniq
      have ihtl := ih huniq.2
      by_cases hak : a = k
      · subst hak
        have htlnone : alistLookup tl a = none :=
          alistLookup_eq_none_of_not_mem tl a huniq.1
        have hlm : alistLookup ((a, v) :: tl) a = some v := by simp [alistLookup]
        cases hl : alistLookup prev a with
        | none => simp [classifyVars, hl, ihtl, htlnone, hlm]
        | some w =>
            by_cases hdiff : Json.stringify v = Json.stringify w <;>
              simp [classifyVars, hl, hdiff, ihtl, htlnone, hlm]
      · have hka : ¬k = a := fun hh => hak hh.symm
        have hlm : alistLookup ((k, v) :: tl) a = alistLookup tl a := by
          simp [alistLookup, hka]
        cases hl : alistLookup prev k with
        | none => simp [classifyVars, hl, ihtl, hlm]
        | some w =>
            by_cases hdiff : Json.stringify v = Json.stringify w <;>
              simp [classifyVars, hl, hdiff, ihtl, hlm, hak]

theorem lookup_isSome_of_mem_keys {κ α : Type} [DecidableEq κ] (m : List (κ × α)) (k : κ)
    (h : k ∈ m.map Prod.fst) : ∃ v, alistLookup m k = some v := by
  induction m with
  | nil => simp at h
  | cons hd tl ih =>
      obtain ⟨k₀, v₀⟩ := hd
      by_cases h₀ : k₀ = k
      · subst h₀
        exact ⟨v₀, by simp [alistLookup]⟩
      · simp only [List.map_cons, List.mem_cons] at h
        rcases h with h | h
        · exact absurd h.symm h₀
        · obtain ⟨v, hv⟩ := ih h
          exact ⟨v, by simp [alistLookup, h₀, hv]⟩

theorem mem_keys_of_lookup {κ α : Type} [DecidableEq κ] (m : List (κ × α)) (k : κ) (v : α)
    (h : alistLookup m k = some v) : k ∈ m.map Prod.fst := by
  have := alistLookup_mem m k v h
  exact List.mem_map.mpr ⟨(k, v), this, rfl⟩

/-- C6 counterexample: two values equal up to object key order have the
same canonical serialization, yet `getChangedVariables` classifies the
variable holding them as `modified`, because the code compares
`JSON.stringify` texts, which depend on key insertion order.  The claim
says such a name is `unchanged`. -/
theorem c6_counterexample :
    canonicalStringify
        (Json.obj (JsonObj.cons "a" (Json.num 1) (JsonObj.cons "b" (Json.num 2) JsonObj.nil))) =
      canonicalStringify
        (Json.obj (JsonObj.cons "b" (Json.num 2) (JsonObj.cons "a" (Json.num 1) JsonObj.nil))) ∧
    (getChangedVariables
      { workflow_id := "w", execution_id := "e", workflow_name := "W",
        current_step_index := 1, total_steps := 1,
        vars := [("x", Json.obj (JsonObj.cons "a" (Json.num 1)
          (JsonObj.cons "b" (Json.num 2) JsonObj.nil)))],
        status := SessionStatus.active, step_outputs := [],
        previous_variables := [("x", Json.obj (JsonObj.cons "b" (Json.num 2)
          (JsonObj.cons "a" (Json.num 1) JsonObj.nil)))] }).modified = ["x"] := by
  constructor
  · decide
  · decide

/-- C6 (amended): `getChangedVariables` partitions the variable names
exhaustively and disjointly into added, modified and unchanged, where a
name is added when absent from the previous snapshot, modified when
present in both with a different `JSON.stringify` serialization — a
comparison in which array order and object key insertion order both
matter — and unchanged otherwise.  The hypothesis is the JavaScript
object invariant that variable keys are unique. -/
theorem c6_changed_variables_partition (session : Session)
    (huniq : (session.vars.map Prod.fst).Nodup) (a : String) :
    ((a ∈ (getChangedVariables session).added ∨ a ∈ (getChangedVariables session).modified ∨
        a ∈ (getChangedVariables session).unchanged) ↔ a ∈ session.vars.map Prod.fst) ∧
    (a ∈ (getChangedVariables session).added ↔
        a ∈ session.vars.map Prod.fst ∧ alistLookup session.previous_variables a = none) ∧
    (a ∈ (getChangedVariables session).modified ↔
        ∃ v w, alistLookup session.vars a = some v ∧
          alistLookup session.previous_variables a = some w ∧
          Json.stringify v ≠ Json.stringify w) ∧
    (a ∈ (getChangedVariables session).unchanged ↔
        ∃ v w, alistLookup session.vars a = some v ∧
          alistLookup session.previous_variables a = some w ∧
          Json.stringify v = Json.stringify w) ∧
    ¬(a ∈ (getChangedVariables session).added ∧ a ∈ (getChangedVariables session).modified) ∧
    ¬(a ∈ (getChangedVariables session).added ∧ a ∈ (getChangedVariables session).unchanged) ∧
    ¬(a ∈ (getChangedVariables session).modified ∧ a ∈ (getChangedVariables session).unchanged) := by
  have hadd := mem_classify_added session.previous_variables session.vars a
  have hmod := mem_classify_modified session.previous_variables session.vars huniq a
  have hunc := mem_classify_unchanged session.previous_variables session.vars huniq a
  unfold getChangedVariables
  refine ⟨⟨fun h => ?_, fun h => ?_⟩, hadd, hmod, hunc, fun h => ?_, fun h => ?_, fun h => ?_⟩
  · rcases h with h | h | h
    · exact (hadd.mp h).1
    · obtain ⟨v, w, hv, _, _⟩ := hmod.mp h
      exact mem_keys_of_lookup _ _ _ hv
    · obtain ⟨v, w, hv, _, _⟩ := hunc.mp h
      exact mem_keys_of_lookup _ _ _ hv
  · obtain ⟨v, hv⟩ := lookup_isSome_of_mem_keys session.vars a h
    cases hp : alistLookup session.previous_variables a with
    | none => exact Or.inl (hadd.mpr ⟨h, hp⟩)
    | some w =>
        by_cases hdiff : Json.stringify v = Json.stringify w
        · exact Or.inr (Or.inr (hunc.mpr ⟨v, w, hv, hp, hdiff⟩))
        · exact Or.inr (Or.inl (hmod.mpr ⟨v, w, hv, hp, hdiff⟩))
  · obtain ⟨_, hnone⟩ := hadd.mp h.1
    obtain ⟨v, w, _, hsome, _⟩ := hmod.mp h.2
    rw [hnone] at hsome
    exact Option.noConfusion hsome
  · obtain ⟨_, hnone⟩ := hadd.mp h.1
    obtain ⟨v, w, _, hsome, _⟩ := hunc.mp h.2
    rw [hnone] at hsome
    exact Option.noConfusion hsome
  · obtain ⟨v, w, hv, hw, hne⟩ := hmod.mp h.1
    obtain ⟨v', w', hv', hw', heq⟩ := hunc.mp h.2
    rw [hv] at hv'
    rw [hw] at hw'
    injection hv' with hv'
    injection hw' with hw'
    subst hv'
    subst hw'
    exact hne heq

/-- C6 witness: a concrete session on which the amended partition theorem
classifies `x` as modified, `y` as unchanged and `z` as added. -/
theorem c6_changed_variables_partition_witness :
    ("z" ∈ (getChangedVariables
      { workflow_id := "w", execution_id := "e", workflow_name := "W",
        current_step_index := 1, total_steps := 1,
        vars := [("x", Json.num 1), ("y", Json.num 2), ("z", Json.num 3)],
        status := SessionStatus.active, step_outputs := [],
        previous_variables := [("x", Json.num 9), ("y", Json.num 2)] }).added ↔
      "z" ∈ ([("x", Json.num 1), ("y", Json.num 2), ("z", Json.num 3)].map Prod.fst) ∧
        alistLookup [("x", Json.num 9), ("y", Json.num 2)] "z" = none) :=
  (c6_changed_variables_partition
    { workflow_id := "w", execution_id := "e", workflow_name := "W",
      current_step_index := 1, total_steps := 1,
      vars := [("x", Json.num 1), ("y", Json.num 2), ("z", Json.num 3)],
      status := SessionStatus.active, step_outputs := [],
      previous_variables := [("x", Json.num 9), ("y", Json.num 2)] }
    (by decide) ("z")).2.1

/-! Concrete fixtures used by the evaluation theorems and witnesses below. -/

/-- A step that saves its result as `a`. -/
def stepS1a : Step where
  id := 1
  action := ActionType.analyze
  description := "s1"
  save_result_as := some "a"

/-- A step with no `save_result_as`. -/
def stepS1plain : Step where
  id := 1
  action := ActionType.analyze
  description := "s1"

/-- A step that saves its result as `b`. -/
def stepS2b : Step where
  id := 2
  action := ActionType.analyze
  description := "s2"
  save_result_as := some "b"

/-- A closing notify step. -/
def stepS3n : Step where
  id := 3
  action := ActionType.notify
  description := "s3"
  message := some "m"

/-- A branch step with id 2. -/
def stepS2branch : Step where
  id := 2
  action := ActionType.branch
  description := "choose"
  conditions := some [{ ifCond := "x > 0", goto_step := 1 }]

/-- Three-step workflow whose steps 1 and 2 save as `a` and `b`. -/
def wfRecordA : Workflow where
  id := "w1"
  name := "W"
  steps := [stepS1a, stepS2b, stepS3n]

/-- Three-step workflow whose step 1 saves nothing. -/
def wfRecordB : Workflow where
  id := "w2"
  name := "W"
  steps := [stepS1plain, stepS2b, stepS3n]

/-- A session of `wfRecordA` sitting at index 1. -/
def sessRecordA : Session where
  workflow_id := "w1"
  execution_id := "e1"
  workflow_name := "W"
  current_step_index := 1
  total_steps := 3
  vars := [("x", Json.num 7)]
  status := SessionStatus.active
  step_outputs := []
  previous_variables := []

/-- A session of `wfRecordB` sitting at index 1 with a stale snapshot. -/
def sessRecordB : Session where
  workflow_id := "w2"
  execution_id := "e2"
  workflow_name := "W"
  current_step_index := 1
  total_steps := 3
  vars := [("x", Json.num 7)]
  status := SessionStatus.active
  step_outputs := []
  previous_variables := [("old", Json.num 0)]

/-- Four-step workflow for the preview evaluation. -/
def wfPreview : Workflow where
  id := "w"
  name := "W"
  steps := [{ id := 1, action := ActionType.analyze, description := "d1" },
            { id := 2, action := ActionType.analyze, description := "d2" },
            { id := 3, action := ActionType.analyze, description := "d3" },
            { id := 4, action := ActionType.analyze, description := "d4" }]

/-- A session of `wfPreview` at index 0. -/
def sessPreview : Session where
  workflow_id := "w"
  execution_id := "e"
  workflow_name := "W"
  current_step_index := 0
  total_steps := 4
  vars := []
  status := SessionStatus.active
  step_outputs := []
  previous_variables := []

/-- One-step workflow named `A`. -/
def wfOnlyA : Workflow where
  id := "w"
  name := "A"
  steps := [{ id := 1, action := ActionType.checkpoint, description := "only" }]

/-- `wfOnlyA` after an edit that renamed it to `B`. -/
def wfOnlyB : Workflow where
  id := "w"
  name := "B"
  steps := [{ id := 1, action := ActionType.checkpoint, description := "only" }]

/-- A session of the one-step workflow at index 0. -/
def sessOnly : Session where
  workflow_id := "w"
  execution_id := "e"
  workflow_name := "A"
  current_step_index := 0
  total_steps := 1
  vars := []
  status := SessionStatus.active
  step_outputs := []
  previous_variables := []

/-- An advance request with no step result asking to continue. -/
def argsNextOnly : RunArgs where
  execution_id := "e"
  next_step_needed := true

/-- C7: in a four-step workflow at current index 0, three upcoming steps
exist, but the preview lists only two of them (the loop runs from
`current+1` up to but excluding `min(current+3, length)`), folding the
third into the `... and 1 more steps` remainder.  The tool description in
the same source file says the next three steps are previewed. -/
theorem c7_upcoming_preview_eval :
    upcomingStepsLines wfPreview sessPreview =
      ["", "Upcoming steps:", "  2. analyze: d2", "  3. analyze: d3",
       "  ... and 1 more steps"] := by
  decide

/-- C1: the step-result recording is attributed one step back.  In
`wfRecordA` (steps 1 and 2 save as `a` and `b`), a result supplied while
`current_step_index = 1` (step 2 just executed) is recorded under step 1:
`variables.a` and `step_outputs[1]` receive it while `variables.b` and
`step_outputs[2]` stay empty, though the claim (and the instruction text
the code itself emits) attributes it to the step at the pre-advance
index.  And in `wfRecordB`, whose step 1 saves nothing, the
`previous_variables` snapshot is not taken at all, though the claim says
it is taken on every advance with a result past index 0. -/
theorem c1_result_recording_eval :
    (runWorkflowStep [("w1", wfRecordA)] [("e1", sessRecordA)]
      { execution_id := "e1", step_result := some (Json.str "r2"),
        next_step_needed := true }).2 =
      [("e1", { sessRecordA with
                  current_step_index := 2,
                  vars := [("x", Json.num 7), ("a", Json.str "r2")],
                  step_outputs := [(1, { variable_name := "a", value := Json.str "r2" })],
                  previous_variables := [("x", Json.num 7)] })] ∧
    (runWorkflowStep [("w2", wfRecordB)] [("e2", sessRecordB)]
      { execution_id := "e2", step_result := some (Json.str "r2"),
        next_step_needed := true }).2 =
      [("e2", { sessRecordB with current_step_index := 2 })] := by
  constructor
  · decide
  · decide

/-- C3 counterexample: the same session advanced against two storages whose
stored copies of its workflow differ by a post-begin edit produces
different results — `runWorkflowStep` re-fetches the definition from
storage on every call, so the edit is visible mid-run. -/
theorem c3_counterexample :
    (runWorkflowStep [("w", wfOnlyA)] [("e", sessOnly)] argsNextOnly).1 ≠
      (runWorkflowStep [("w", wfOnlyB)] [("e", sessOnly)] argsNextOnly).1 := by
  decide

/-- C3 (amended): every advance call computes its result from the
definition fetched from storage at call time — the session stores no
copy — so two calls on the same session registry agree exactly when the
storages agree on the session's workflow id; an edit to the stored copy
after `begin` changes subsequent advance results (see the
counterexample). -/
theorem c3_advance_uses_current_storage
    (st1 st2 : List (String × Workflow)) (sessions : List (String × Session))
    (args : RunArgs) (session : Session)
    (hsess : alistLookup sessions args.execution_id = some session)
    (hag : alistLookup st1 session.workflow_id = alistLookup st2 session.workflow_id) :
    runWorkflowStep st1 sessions args = runWorkflowStep st2 sessions args := by
  simp only [runWorkflowStep, hsess]
  rw [hag]

/-- C3 witness: storages that agree on the session's workflow id produce
identical advance results even though one of them was edited elsewhere. -/
theorem c3_advance_uses_current_storage_witness :
    runWorkflowStep [("w", wfOnlyA)] [("e", sessOnly)] argsNextOnly =
      runWorkflowStep [("w", wfOnlyA), ("v", wfOnlyB)] [("e", sessOnly)] argsNextOnly :=
  c3_advance_uses_current_storage _ _ _ argsNextOnly sessOnly (by decide) (by decide)

theorem applyStepResult_ok (workflow : Workflow) (args : RunArgs) (session : Session)
    (hidx : session.current_step_index ≤ workflow.steps.length) :
    ∃ session₁, applyStepResult workflow args session = .ok session₁ ∧
      session₁.current_step_index = session.current_step_index ∧
      session₁.workflow_id = session.workflow_id := by
  unfold applyStepResult
  cases args.step_result with
  | none => exact ⟨session, rfl, rfl, rfl⟩
  | some r =>
      dsimp only
      by_cases h0 : session.current_step_index > 0
      · obtain ⟨prevStep, hp⟩ :
            ∃ s, workflow.steps.get? (session.current_step_index - 1) = some s := by
          cases hg : workflow.steps.get? (session.current_step_index - 1) with
          | some s => exact ⟨s, rfl⟩
          | none =>
              rw [List.get?_eq_none] at hg
              omega
        rw [if_pos h0, hp]
        dsimp only
        cases hs : prevStep.save_result_as with
        | none => exact ⟨session, rfl, rfl, rfl⟩
        | some varName =>
            dsimp only
            by_cases hv : varName = ""
            · rw [if_pos hv]
              exact ⟨session, rfl, rfl, rfl⟩
            · rw [if_neg hv]
              exact ⟨_, rfl, rfl, rfl⟩
      · rw [if_neg h0]
        exact ⟨session, rfl, rfl, rfl⟩

/-- C4: an advance call with `continueFlag = false` marks the session
completed, removes it from the registry, and returns a completion summary
carrying the final variables snapshot (those of the session after the
step-result recording); every subsequent advance with the same execution
id fails with the session-not-found error.  Hypotheses: the session is
registered, its workflow is in storage, its index respects the
`[0, total_steps]` invariant, and registry keys are unique (a `Map`
invariant). -/
theorem c4_terminate_deregisters
    (storage : List (String × Workflow)) (sessions : List (String × Session))
    (args : RunArgs) (session : Session) (workflow : Workflow)
    (hsess : alistLookup sessions args.execution_id = some session)
    (hwf : alistLookup storage session.workflow_id = some workflow)
    (hflag : args.next_step_needed = false)
    (hidx : session.current_step_index ≤ workflow.steps.length)
    (huniq : (sessions.map Prod.fst).Nodup) :
    ∃ session₁, applyStepResult workflow args session = .ok session₁ ∧
      (runWorkflowStep storage sessions args).1 =
        .ok (.completed args.execution_id
          ("Workflow \"" ++ workflow.name ++ "\" completed successfully") session₁.vars) ∧
      alistLookup (runWorkflowStep storage sessions args).2 args.execution_id = none ∧
      (∀ args₂ : RunArgs, args₂.execution_id = args.execution_id →
        (runWorkflowStep storage (runWorkflowStep storage sessions args).2 args₂).1 =
          .error (.sessionNotFound args.execution_id)) := by
  obtain ⟨session₁, happ, _, _⟩ := applyStepResult_ok workflow args session hidx
  have hrun : runWorkflowStep storage sessions args =
      (.ok (.completed args.execution_id
          ("Workflow \"" ++ workflow.name ++ "\" completed successfully") session₁.vars),
       alistErase (alistSet sessions args.execution_id session₁) args.execution_id) := by
    simp only [runWorkflowStep, hsess, hwf, happ]
    simp [advanceCore, hflag, completionResult]
  have herase : alistLookup
      (alistErase (alistSet sessions args.execution_id session₁) args.execution_id)
      args.execution_id = none :=
    alistLookup_erase_self _ _ (alistSet_keys_nodup _ _ _ huniq)
  refine ⟨session₁, happ, ?_, ?_, ?_⟩
  · rw [hrun]
  · rw [hrun]
    exact herase
  · intro args₂ heid
    rw [hrun]
    have hnone : alistLookup
        (alistErase (alistSet sessions args.execution_id session₁) args.execution_id)
        args₂.execution_id = none := by
      rw [heid]
      exact herase
    simp only [runWorkflowStep, hnone]
    rw [heid]

/-- An advance request asking to terminate. -/
def argsEndOnly : RunArgs where
  execution_id := "e"
  next_step_needed := false

/-- C4 witness: terminating the one-step session returns the completion
summary with its final variables and deregisters it. -/
theorem c4_terminate_deregisters_witness :
    (runWorkflowStep [("w", wfOnlyA)] [("e", sessOnly)] argsEndOnly).1 =
      .ok (.completed "e" "Workflow \"A\" completed successfully" []) ∧
    alistLookup (runWorkflowStep [("w", wfOnlyA)] [("e", sessOnly)] argsEndOnly).2 "e" =
      none := by
  obtain ⟨session₁, happ, h1, h2, _⟩ := c4_terminate_deregisters
    [("w", wfOnlyA)] [("e", sessOnly)] argsEndOnly sessOnly wfOnlyA
    (by decide) (by decide) rfl (by decide) (by decide)
  have happc : applyStepResult wfOnlyA argsEndOnly sessOnly = .ok sessOnly := rfl
  rw [happc] at happ
  injection happ with hs
  subst hs
  exact ⟨h1, h2⟩

theorem findIndexById_some (steps : List Step) (t idx : Nat)
    (h : findIndexById steps t = some idx) :
    ∃ s, steps.get? idx = some s ∧ s.id = t := by
  induction steps generalizing idx with
  | nil => simp [findIndexById] at h
  | cons s tl ih =>
      by_cases hid : s.id = t
      · simp only [findIndexById, if_pos hid, Option.some.injEq] at h
        subst h
        exact ⟨s, rfl, hid⟩
      · simp only [findIndexById, if_neg hid, Option.map_eq_some'] at h
        obtain ⟨j, hj, hidx⟩ := h
        obtain ⟨s', hs', hsid⟩ := ih j hj
        subst hidx
        exact ⟨s', by simpa using hs', hsid⟩

theorem runWorkflowStep_ok_prelude
    (storage : List (String × Workflow)) (sessions : List (String × Session))
    (args : RunArgs) (session session₁ : Session) (workflow : Workflow)
    (hsess : alistLookup sessions args.execution_id = some session)
    (hwf : alistLookup storage session.workflow_id = some workflow)
    (happ : applyStepResult workflow args session = .ok session₁) :
    runWorkflowStep storage sessions args =
      advanceCore workflow args session₁ (alistSet sessions args.execution_id session₁) := by
  simp only [runWorkflowStep, hsess, hwf, happ]

theorem advanceCore_no_complete (workflow : Workflow) (args : RunArgs) (session₁ : Session)
    (sessions₁ : List (String × Session))
    (hnext : args.next_step_needed = true)
    (hlt : session₁.current_step_index < workflow.steps.length) :
    advanceCore workflow args session₁ sessions₁ =
      (match workflow.steps.get? session₁.current_step_index with
       | none => (.error .typeError, sessions₁)
       | some currentStep =>
         match computeNextIndex workflow currentStep args session₁ with
         | .error e => (.error e, sessions₁)
         | .ok nextStepIndex =>
           let session₂ := { session₁ with current_step_index := nextStepIndex }
           let sessions₂ := alistSet sessions₁ args.execution_id session₂
           if workflow.steps.length ≤ nextStepIndex then
             completionResult workflow args session₂ sessions₂
           else
             match workflow.steps.get? nextStepIndex with
             | none => (.error .typeError, sessions₂)
             | some nextStep =>
                 (.ok (.instructions (generateStepInstructions workflow nextStep session₂)),
                  sessions₂)) := by
  unfold advanceCore
  rw [hnext]
  have hcond : (!true || decide (workflow.steps.length ≤ session₁.current_step_index)) =
      false := by
    simp only [Bool.not_true, Bool.false_or, decide_eq_false_iff_not]
    omega
  rw [hcond]
  simp

theorem computeNextIndex_branch_resolves (workflow : Workflow) (step : Step) (args : RunArgs)
    (session₁ : Session) (r : Json)
    (hres : args.step_result = some r) (hact : step.action = ActionType.branch)
    (htr : Json.truthy r = true) :
    computeNextIndex workflow step args session₁ =
      (match resolveTarget (Json.toJSString r) with
       | some targetStep =>
           match findIndexById workflow.steps targetStep with
           | some idx => .ok idx
           | none => .error (.invalidBranchTarget targetStep)
       | none => .ok (session₁.current_step_index + 1)) := by
  unfold computeNextIndex
  rw [hres]
  dsimp only
  rw [if_pos]
  simp [hact, htr]

theorem computeNextIndex_sequential (workflow : Workflow) (step : Step) (args : RunArgs)
    (session₁ : Session) (r : Json)
    (hres : args.step_result = some r)
    (h : Json.truthy r = false ∨ resolveTarget (Json.toJSString r) = none) :
    computeNextIndex workflow step args session₁ = .ok (session₁.current_step_index + 1) := by
  unfold computeNextIndex
  rw [hres]
  dsimp only
  rcases h with h | h
  · rw [if_neg]
    simp [h]
  · by_cases hb : (decide (step.action = ActionType.branch) && Json.truthy r) = true
    · rw [if_pos hb, h]
    · rw [if_neg hb]

/-- Three-step workflow whose middle step is a branch. -/
def wfBranch : Workflow where
  id := "wb"
  name := "WB"
  steps := [stepS1plain, stepS2branch, stepS3n]

/-- A session of `wfBranch` at index 1 (the branch step just executed). -/
def sessBranch : Session where
  workflow_id := "wb"
  execution_id := "eb"
  workflow_name := "WB"
  current_step_index := 1
  total_steps := 3
  vars := [("x", Json.num 7)]
  status := SessionStatus.active
  step_outputs := []
  previous_variables := []

/-- C2 counterexample: the step at the pre-advance index is a branch and
the supplied result names nonexistent step 9, yet with
`continueFlag = false` the call returns a successful completion summary —
it terminates at the check that precedes branch resolution instead of
failing with `InvalidBranchTarget`. -/
theorem c2_counterexample :
    resolveTarget (Json.toJSString (Json.str "Branching to step 9")) = some 9 ∧
    findIndexById wfBranch.steps 9 = none ∧
    (runWorkflowStep [("wb", wfBranch)] [("eb", sessBranch)]
      { execution_id := "eb", step_result := some (Json.str "Branching to step 9"),
        next_step_needed := false }).1 =
      .ok (.completed "eb" ("Workflow \"WB\" completed successfully") [("x", Json.num 7)]) := by
  refine ⟨by decide, by decide, by decide⟩

/-- C2 (amended): for an advance call with `continueFlag = true` whose
pre-advance step is a branch with a supplied step result: when the (truthy)
result text yields a target id, the cursor is set to the position of the
step with that id and the next instruction is for that step; when the
extracted id matches no step, the call fails with `InvalidBranchTarget`
and never falls back to sequential advance; when no target is extracted
(or the result is falsy, so no extraction is attempted), the cursor
advances sequentially by 1.  (With `continueFlag = false` the call
terminates before branch resolution; see the counterexample.) -/
theorem c2_branch_target_resolution
    (storage : List (String × Workflow)) (sessions : List (String × Session))
    (args : RunArgs) (session : Session) (workflow : Workflow) (step : Step) (r : Json)
    (hsess : alistLookup sessions args.execution_id = some session)
    (hwf : alistLookup storage session.workflow_id = some workflow)
    (hstep : workflow.steps.get? session.current_step_index = some step)
    (hact : step.action = ActionType.branch)
    (hres : args.step_result = some r)
    (hnext : args.next_step_needed = true) :
    (∀ t, Json.truthy r = true → resolveTarget (Json.toJSString r) = some t →
      findIndexById workflow.steps t = none →
      ∃ session₁, applyStepResult workflow args session = .ok session₁ ∧
        runWorkflowStep storage sessions args =
          (.error (.invalidBranchTarget t), alistSet sessions args.execution_id session₁)) ∧
    (∀ t idx, Json.truthy r = true → resolveTarget (Json.toJSString r) = some t →
      findIndexById workflow.steps t = some idx →
      ∃ session₁ nextStep, applyStepResult workflow args session = .ok session₁ ∧
        workflow.steps.get? idx = some nextStep ∧ nextStep.id = t ∧
        runWorkflowStep storage sessions args =
          (.ok (.instructions (generateStepInstructions workflow nextStep
              { session₁ with current_step_index := idx })),
           alistSet (alistSet sessions args.execution_id session₁) args.execution_id
             { session₁ with current_step_index := idx })) ∧
    ((Json.truthy r = false ∨ resolveTarget (Json.toJSString r) = none) →
      ∃ session₁, applyStepResult workflow args session = .ok session₁ ∧
        ((session.current_step_index + 1 < workflow.steps.length ∧
          ∃ nextStep,
            workflow.steps.get? (session.current_step_index + 1) = some nextStep ∧
            runWorkflowStep storage sessions args =
              (.ok (.instructions (generateStepInstructions workflow nextStep
                  { session₁ with current_step_index := session.current_step_index + 1 })),
               alistSet (alistSet sessions args.execution_id session₁) args.execution_id
                 { session₁ with current_step_index := session.current_step_index + 1 })) ∨
         (workflow.steps.length ≤ session.current_step_index + 1 ∧
          runWorkflowStep storage sessions args =
            completionResult workflow args
              { session₁ with current_step_index := session.current_step_index + 1 }
              (alistSet (alistSet sessions args.execution_id session₁) args.execution_id
                { session₁ with current_step_index := session.current_step_index + 1 })))) := by
  have hlt : session.current_step_index < workflow.steps.length := by
    cases hg : workflow.steps.get? session.current_step_index with
    | none => rw [hg] at hstep; exact Option.noConfusion hstep
    | some s =>
        have := List.get?_eq_some.mp hg
        exact this.1
  obtain ⟨session₁, happ, hidx₁, _⟩ :=
    applyStepResult_ok workflow args session (Nat.le_of_lt hlt)
  have hlt₁ : session₁.current_step_index < workflow.steps.length := by
    rw [hidx₁]; exact hlt
  have hpre := runWorkflowStep_ok_prelude storage sessions args session session₁ workflow
    hsess hwf happ
  have hcore := advanceCore_no_complete workflow args session₁
    (alistSet sessions args.execution_id session₁) hnext hlt₁
  have hget₁ : workflow.steps.get? session₁.current_step_index = some step := by
    rw [hidx₁]; exact hstep
  refine ⟨?_, ?_, ?_⟩
  · intro t htr hrt hfind
    refine ⟨session₁, happ, ?_⟩
    rw [hpre, hcore, hget₁]
    dsimp only
    rw [computeNextIndex_branch_resolves workflow step args session₁ r hres hact htr,
      hrt]
    dsimp only
    rw [hfind]
  · intro t idx htr hrt hfind
    obtain ⟨nextStep, hns, hnsid⟩ := findIndexById_some workflow.steps t idx hfind
    refine ⟨session₁, nextStep, happ, hns, hnsid, ?_⟩
    rw [hpre, hcore, hget₁]
    dsimp only
    rw [computeNextIndex_branch_resolves workflow step args session₁ r hres hact htr,
      hrt]
    dsimp only
    rw [hfind]
    dsimp only
    have hidxlt : idx < workflow.steps.length := (List.get?_eq_some.mp hns).1
    rw [if_neg (by omega)]
    rw [hns]
  · intro hseq
    refine ⟨session₁, happ, ?_⟩
    have hnexteq := computeNextIndex_sequential workflow step args session₁ r hres hseq
    by_cases hend : workflow.steps.length ≤ session.current_step_index + 1
    · refine Or.inr ⟨hend, ?_⟩
      rw [hpre, hcore, hget₁]
      dsimp only
      rw [hnexteq]
      dsimp only
      rw [hidx₁]
      rw [if_pos hend]
    · refine Or.inl ⟨by omega, ?_⟩
      obtain ⟨nextStep, hns⟩ :
          ∃ s, workflow.steps.get? (session.current_step_index + 1) = some s := by
        cases hg : workflow.steps.get? (session.current_step_index + 1) with
        | some s => exact ⟨s, rfl⟩
        | none =>
            rw [List.get?_eq_none] at hg
            omega
      refine ⟨nextStep, hns, ?_⟩
      rw [hpre, hcore, hget₁]
      dsimp only
      rw [hnexteq]
      dsimp only
      rw [hidx₁]
      rw [if_neg hend, hns]

/-- A branch decision naming existing step 1. -/
def argsBranchGo : RunArgs where
  execution_id := "eb"
  step_result := some (Json.str "Branching to step 1")
  next_step_needed := true

/-- C2 witness: a branch decision naming step 1 moves the cursor to that
step's position and the next instruction is for it. -/
theorem c2_branch_target_resolution_witness :
    runWorkflowStep [("wb", wfBranch)] [("eb", sessBranch)] argsBranchGo =
      (.ok (.instructions (generateStepInstructions wfBranch stepS1plain
          { sessBranch with current_step_index := 0 })),
       alistSet (alistSet [("eb", sessBranch)] ("eb") sessBranch) ("eb")
         { sessBranch with current_step_index := 0 }) := by
  obtain ⟨s₁, ns, happ, hns, _, hrun⟩ :=
    (c2_branch_target_resolution [("wb", wfBranch)] [("eb", sessBranch)] argsBranchGo
      sessBranch wfBranch stepS2branch (Json.str "Branching to step 1")
      (by decide) (by decide) rfl rfl rfl rfl).2.1 1 0 (by decide) (by decide) (by decide)
  have happc : applyStepResult wfBranch argsBranchGo sessBranch = .ok sessBranch := rfl
  rw [happc] at happ
  injection happ with h1
  subst h1
  have hns0 : wfBranch.steps.get? 0 = some stepS1plain := rfl
  rw [hns0] at hns
  injection hns with h2
  subst h2
  exact hrun

theorem applyStepResult_record (workflow : Workflow) (args : RunArgs) (session : Session)
    (r : Json) (prevStep : Step) (varName : String)
    (hres : args.step_result = some r)
    (hi0 : 0 < session.current_step_index)
    (hprev : workflow.steps.get? (session.current_step_index - 1) = some prevStep)
    (hsave : prevStep.save_result_as = some varName)
    (hvn : varName ≠ "") :
    applyStepResult workflow args session = .ok
      { session with
        step_outputs := alistSet session.step_outputs prevStep.id
          { variable_name := varName, value := r },
        previous_variables := session.vars,
        vars := alistSet session.vars varName r } := by
  unfold applyStepResult
  rw [hres]
  dsimp only
  rw [if_pos hi0, hprev]
  dsimp only
  rw [hsave]
  dsimp only
  rw [if_neg hvn]

/-- C8: an advance call that fails with `InvalidBranchTarget` leaves the
session registered under its execution id, and the variable assignment
from the supplied step result (committed before branch resolution, under
the step preceding the pre-advance index, which carries `save_result_as`)
is still present in the registered session's variables afterwards. -/
theorem c8_invalid_branch_keeps_session
    (storage : List (String × Workflow)) (sessions : List (String × Session))
    (args : RunArgs) (session : Session) (workflow : Workflow) (step prevStep : Step)
    (r : Json) (t : Nat) (varName : String)
    (hsess : alistLookup sessions args.execution_id = some session)
    (hwf : alistLookup storage session.workflow_id = some workflow)
    (hstep : workflow.steps.get? session.current_step_index = some step)
    (hact : step.action = ActionType.branch)
    (hres : args.step_result = some r)
    (hnext : args.next_step_needed = true)
    (htr : Json.truthy r = true)
    (hrt : resolveTarget (Json.toJSString r) = some t)
    (hfind : findIndexById workflow.steps t = none)
    (hi0 : 0 < session.current_step_index)
    (hprev : workflow.steps.get? (session.current_step_index - 1) = some prevStep)
    (hsave : prevStep.save_result_as = some varName)
    (hvn : varName ≠ "") :
    (runWorkflowStep storage sessions args).1 = .error (.invalidBranchTarget t) ∧
    alistLookup (runWorkflowStep storage sessions args).2 args.execution_id =
      some { session with
             step_outputs := alistSet session.step_outputs prevStep.id
               { variable_name := varName, value := r },
             previous_variables := session.vars,
             vars := alistSet session.vars varName r } ∧
    (∀ s', alistLookup (runWorkflowStep storage sessions args).2 args.execution_id = some s' →
      alistLookup s'.vars varName = some r) := by
  have happ := applyStepResult_record workflow args session r prevStep varName
    hres hi0 hprev hsave hvn
  set s₁ : Session :=
    { session with
      step_outputs := alistSet session.step_outputs prevStep.id
        { variable_name := varName, value := r },
      previous_variables := session.vars,
      vars := alistSet session.vars varName r } with hs₁def
  have hlt : session.current_step_index < workflow.steps.length := by
    cases hg : workflow.steps.get? session.current_step_index with
    | none => rw [hg] at hstep; exact Option.noConfusion hstep
    | some s => exact (List.get?_eq_some.mp hg).1
  have hidx₁ : s₁.current_step_index = session.current_step_index := by rw [hs₁def]
  have hpre := runWorkflowStep_ok_prelude storage sessions args session s₁ workflow
    hsess hwf happ
  have hcore := advanceCore_no_complete workflow args s₁
    (alistSet sessions args.execution_id s₁) hnext (hidx₁ ▸ hlt)
  have hget₁ : workflow.steps.get? s₁.current_step_index = some step := by
    rw [hidx₁]; exact hstep
  have hrun : runWorkflowStep storage sessions args =
      (.error (.invalidBranchTarget t), alistSet sessions args.execution_id s₁) := by
    rw [hpre, hcore, hget₁]
    dsimp only
    rw [computeNextIndex_branch_resolves workflow step args s₁ r hres hact htr, hrt]
    dsimp only
    rw [hfind]
  have hlookup : alistLookup (runWorkflowStep storage sessions args).2 args.execution_id =
      some s₁ := by
    rw [hrun]
    rw [alistLookup_set]
    simp
  refine ⟨by rw [hrun], hlookup, ?_⟩
  intro s' hs'
  rw [hlookup] at hs'
  injection hs' with hs'
  subst hs'
  rw [hs₁def]
  dsimp only
  rw [alistLookup_set]
  simp

/-- Three-step workflow: step 1 saves as `a`, step 2 is a branch. -/
def wfBranchSave : Workflow where
  id := "wc"
  name := "WC"
  steps := [stepS1a, stepS2branch, stepS3n]

/-- A session of `wfBranchSave` at index 1. -/
def sessBranchSave : Session where
  workflow_id := "wc"
  execution_id := "ec"
  workflow_name := "WC"
  current_step_index := 1
  total_steps := 3
  vars := [("x", Json.num 7)]
  status := SessionStatus.active
  step_outputs := []
  previous_variables := []

/-- A branch decision naming nonexistent step 9, asking to continue. -/
def argsBranchBad : RunArgs where
  execution_id := "ec"
  step_result := some (Json.str "Branching to step 9")
  next_step_needed := true

/-- C8 witness: after the failed branch resolution the session is still
registered and holds the committed assignment `a := step result`. -/
theorem c8_invalid_branch_keeps_session_witness :
    (runWorkflowStep [("wc", wfBranchSave)] [("ec", sessBranchSave)] argsBranchBad).1 =
      .error (.invalidBranchTarget 9) ∧
    alistLookup (runWorkflowStep [("wc", wfBranchSave)] [("ec", sessBranchSave)]
        argsBranchBad).2 ("ec") =
      some { sessBranchSave with
             step_outputs := alistSet sessBranchSave.step_outputs 1
               { variable_name := "a", value := Json.str "Branching to step 9" },
             previous_variables := sessBranchSave.vars,
             vars := alistSet sessBranchSave.vars ("a")
               (Json.str "Branching to step 9") } := by
  have h := c8_invalid_branch_keeps_session
    [("wc", wfBranchSave)] [("ec", sessBranchSave)] argsBranchBad
    sessBranchSave wfBranchSave stepS2branch stepS1a
    (Json.str "Branching to step 9") 9 ("a")
    (by decide) (by decide) rfl rfl rfl rfl (by decide) (by decide) (by decide)
    (by decide) rfl rfl (by decide)
  exact ⟨h.1, h.2.1⟩
